import Mathlib

/-!
Verification of the a-mir-formality core: the term/binder model
(`formality-types/src/grammar/ty.rs`), the where-clause solver entry point
(`formality-prove/src/prove/prove_wc_list.rs`), the coherence checker
(`formality-check/src/coherence.rs`), the trait well-formedness check
(`formality-check/src/traits.rs`) and the reachability judgment used to
test the judgment engine (`formality-types/src/judgment/test_reachable.rs`).

Types and functions whose Rust source is present are translated directly;
parts of the repository that only appear here as callers or imports
(the `Fold` trait implementations, `Binder`, `Wc`/`Wcs`, `Env`,
`Constraints`, the solver internals and the judgment engine) are modelled
from the specification, and each such definition says so in its doc
comment.
-/

/-- `Universe` from `ty.rs`: `pub struct Universe { pub index: usize }`. -/
structure Universe where
  index : Nat
  deriving DecidableEq, Repr

/-- `Universe::ROOT`: the root universe, index 0. -/
def Universe.ROOT : Universe := ⟨0⟩

/-- `InferenceVar` from `ty.rs`: `pub struct InferenceVar { index: usize }`. -/
structure InferenceVar where
  index : Nat
  deriving DecidableEq, Repr

/-- `PlaceholderVar` from `ty.rs`: a dummy variable tagged with a universe
(the source field is named `universe`, a keyword here). -/
structure PlaceholderVar where
  univ : Universe
  index : Nat
  deriving DecidableEq, Repr

/-- `DebruijnIndex` from `ty.rs`. -/
structure DebruijnIndex where
  index : Nat
  deriving DecidableEq, Repr

/-- `DebruijnIndex::INNERMOST`. -/
def DebruijnIndex.INNERMOST : DebruijnIndex := ⟨0⟩

/-- `DebruijnIndex::shift_in`: adjust this debruijn index through a binder level. -/
def DebruijnIndex.shift_in (d : DebruijnIndex) : DebruijnIndex :=
  ⟨d.index + 1⟩

/-- `DebruijnIndex::shift_out`: adjust this debruijn index outward through a
binder level, if possible. -/
def DebruijnIndex.shift_out (d : DebruijnIndex) : Option DebruijnIndex :=
  if d.index > 0 then some ⟨d.index - 1⟩ else none

/-- `VarIndex` from `ty.rs`. -/
structure VarIndex where
  index : Nat
  deriving DecidableEq, Repr

/-- `BoundVar` from `ty.rs`: identifies a bound variable; `debruijn = none`
means the variable is currently open (mid-traversal, not yet re-closed). -/
structure BoundVar where
  debruijn : Option DebruijnIndex
  varIndex : VarIndex
  deriving DecidableEq, Repr

/-- `Variable` from `ty.rs`: tagged union of the three variable kinds. -/
inductive Variable where
  | placeholderVar (v : PlaceholderVar)
  | inferenceVar (v : InferenceVar)
  | boundVar (v : BoundVar)
  deriving DecidableEq, Repr

/-- `Variable::shift_in`: shift a variable in through a binding level;
only affects bound variables that carry a debruijn index. -/
def Variable.shift_in (v : Variable) : Variable :=
  match v with
  | .boundVar ⟨some db, varIndex⟩ => .boundVar ⟨some db.shift_in, varIndex⟩
  | _ => v

/-- `Variable::shift_out`: shift a variable out through a binding level;
returns `none` if the variable is bound within that level. -/
def Variable.shift_out (v : Variable) : Option Variable :=
  match v with
  | .boundVar ⟨some db, varIndex⟩ =>
    db.shift_out.map (fun db1 => .boundVar ⟨some db1, varIndex⟩)
  | _ => some v

/-- `Variable::is_free` from `ty.rs`: returns `true` for placeholder and
inference variables and `false` for every bound variable (including a
`BoundVar` whose debruijn index is `None`). -/
def Variable.is_free (v : Variable) : Bool :=
  match v with
  | .placeholderVar _ | .inferenceVar _ => true
  | .boundVar _ => false

/-- `ScalarId` from `ty.rs`. -/
inductive ScalarId where
  | u8 | u16 | u32 | u64 | i8 | i16 | i32 | i64 | bool | usize | isize
  deriving DecidableEq, Repr

/-- `RefKind` from `ty.rs`. -/
inductive RefKind where
  | shared | mut
  deriving DecidableEq, Repr

/-- Identifier types (`AdtId`, `FnId`, `TraitId`, `AssociatedItemId`):
interned strings in the source, plain strings here. -/
abbrev AdtId := String

abbrev FnId := String

abbrev TraitId := String

abbrev AssociatedItemId := String

/-- `RigidName` from `ty.rs`. -/
inductive RigidName where
  | adtId (id : AdtId)
  | scalarId (id : ScalarId)
  | ref (k : RefKind)
  | tuple (arity : Nat)
  | fnPtr (arity : Nat)
  | fnDef (id : FnId)
  deriving DecidableEq, Repr

/-- `AssociatedTyId` from `ty.rs`. -/
structure AssociatedTyId where
  traitId : TraitId
  itemId : AssociatedItemId
  deriving DecidableEq, Repr

/-- `AliasName` from `ty.rs`. -/
inductive AliasName where
  | associatedTyId (id : AssociatedTyId)
  deriving DecidableEq, Repr

/-- `ParameterKind` from `ty.rs`. -/
inductive ParameterKind where
  | ty | lt
  deriving DecidableEq, Repr

/-- `Lt`/`LtData` from `ty.rs` (the `Arc` indirection between `Lt` and
`LtData` is the identity here). -/
inductive Lt where
  | static
  | var (v : Variable)
  deriving DecidableEq, Repr

/-- Modelled from the spec: `Binder<T>` pairs a term of type `T` with the
list of parameter-kind declarations it closes over; bound variables inside
the term at depth 0 refer to this binder's declarations.  (`binder.rs` is
not part of the sources under verification; only its uses are.) -/
structure Binder (α : Type) where
  kinds : List ParameterKind
  term : α
  deriving DecidableEq, Repr

/- The recursive term family.  `Ty`/`TyData` from `ty.rs` (the `Arc`
indirection is the identity here), `PredicateTy` from `ty.rs` with the
`ImplicationTy`/`EnsuresTy` structs inlined as constructor fields, and the
`Predicate` grammar — whose defining module is not among the sources,
only its import — modelled from the spec as trait-reference predicates
(positive, negative, and the locality side predicate used by coherence). -/
mutual
/-- `Ty`/`TyData` from `ty.rs`: rigid types, alias types, predicate types
and variables. -/
inductive Ty where
  | rigid (name : RigidName) (parameters : List Parameter)
  | alias (name : AliasName) (parameters : List Parameter)
  | predicateTy (p : PredicateTy)
  | var (v : Variable)

/-- `PredicateTy` from `ty.rs`: for-all and exists types (binders over a
type) and implication/ensures types carrying predicate lists. -/
inductive PredicateTy where
  | forAllTy (b : Binder Ty)
  | existsTy (b : Binder Ty)
  | implicationTy (predicates : List Predicate) (ty : Ty)
  | ensuresTy (ty : Ty) (predicates : List Predicate)

/-- Modelled from the spec: the `Predicate` well-formedness/trait goals
(the grammar module defining them is not among the sources).  A predicate
is a positive or negative trait-implementation assertion, or the locality
side predicate used by the orphan check. -/
inductive Predicate where
  | isImplemented (tr : TraitRef)
  | notImplemented (tr : TraitRef)
  | isLocal (tr : TraitRef)

/-- Modelled from the spec: a trait reference — the "interface reference"
of an implementation — is a trait id applied to a parameter list. -/
inductive TraitRef where
  | mk (traitId : TraitId) (parameters : List Parameter)

/-- `Parameter` from `ty.rs`: tagged union of types and lifetimes. -/
inductive Parameter where
  | ty (t : Ty)
  | lt (l : Lt)
end

/-- The trait id of a trait reference. -/
def TraitRef.traitId : TraitRef → TraitId
  | .mk id _ => id

/-- The parameter list of a trait reference. -/
def TraitRef.parameters : TraitRef → List Parameter
  | .mk _ ps => ps

/-- `Variable::into_parameter` from `ty.rs`. -/
def Variable.into_parameter (v : Variable) (kind : ParameterKind) : Parameter :=
  match kind with
  | .lt => .lt (.var v)
  | .ty => .ty (.var v)

mutual
/-- Decidable structural equality for `Ty` (the source derives `Eq`/`Ord`
on every term type). -/
def Ty.deq : (a b : Ty) → Decidable (a = b)
  | .rigid n1 ps1, .rigid n2 ps2 =>
    match decEq n1 n2, Parameter.deqList ps1 ps2 with
    | isTrue h1, isTrue h2 => isTrue (by rw [h1, h2])
    | isFalse h1, _ => isFalse (fun h => by cases h; exact h1 rfl)
    | _, isFalse h2 => isFalse (fun h => by cases h; exact h2 rfl)
  | .alias n1 ps1, .alias n2 ps2 =>
    match decEq n1 n2, Parameter.deqList ps1 ps2 with
    | isTrue h1, isTrue h2 => isTrue (by rw [h1, h2])
    | isFalse h1, _ => isFalse (fun h => by cases h; exact h1 rfl)
    | _, isFalse h2 => isFalse (fun h => by cases h; exact h2 rfl)
  | .predicateTy p1, .predicateTy p2 =>
    match PredicateTy.deq p1 p2 with
    | isTrue h => isTrue (by rw [h])
    | isFalse h => isFalse (fun hh => by cases hh; exact h rfl)
  | .var v1, .var v2 =>
    match decEq v1 v2 with
    | isTrue h => isTrue (by rw [h])
    | isFalse h => isFalse (fun hh => by cases hh; exact h rfl)
  | .rigid .., .alias .. => isFalse nofun
  | .rigid .., .predicateTy .. => isFalse nofun
  | .rigid .., .var .. => isFalse nofun
  | .alias .., .rigid .. => isFalse nofun
  | .alias .., .predicateTy .. => isFalse nofun
  | .alias .., .var .. => isFalse nofun
  | .predicateTy .., .rigid .. => isFalse nofun
  | .predicateTy .., .alias .. => isFalse nofun
  | .predicateTy .., .var .. => isFalse nofun
  | .var .., .rigid .. => isFalse nofun
  | .var .., .alias .. => isFalse nofun
  | .var .., .predicateTy .. => isFalse nofun
  termination_by structural a => a

/-- Decidable structural equality for `PredicateTy`. -/
def PredicateTy.deq : (a b : PredicateTy) → Decidable (a = b)
  | .forAllTy b1, .forAllTy b2 =>
    match decEq b1.kinds b2.kinds, Ty.deq b1.term b2.term with
    | isTrue h1, isTrue h2 =>
      isTrue (by cases b1; cases b2; cases h1; cases h2; rfl)
    | isFalse h1, _ => isFalse (fun h => by cases h; exact h1 rfl)
    | _, isFalse h2 => isFalse (fun h => by cases h; exact h2 rfl)
  | .existsTy b1, .existsTy b2 =>
    match decEq b1.kinds b2.kinds, Ty.deq b1.term b2.term with
    | isTrue h1, isTrue h2 =>
      isTrue (by cases b1; cases b2; cases h1; cases h2; rfl)
    | isFalse h1, _ => isFalse (fun h => by cases h; exact h1 rfl)
    | _, isFalse h2 => isFalse (fun h => by cases h; exact h2 rfl)
  | .implicationTy ps1 t1, .implicationTy ps2 t2 =>
    match Predicate.deqList ps1 ps2, Ty.deq t1 t2 with
    | isTrue h1, isTrue h2 => isTrue (by rw [h1, h2])
    | isFalse h1, _ => isFalse (fun h => by cases h; exact h1 rfl)
    | _, isFalse h2 => isFalse (fun h => by cases h; exact h2 rfl)
  | .ensuresTy t1 ps1, .ensuresTy t2 ps2 =>
    match Ty.deq t1 t2, Predicate.deqList ps1 ps2 with
    | isTrue h1, isTrue h2 => isTrue (by rw [h1, h2])
    | isFalse h1, _ => isFalse (fun h => by cases h; exact h1 rfl)
    | _, isFalse h2 => isFalse (fun h => by cases h; exact h2 rfl)
  | .forAllTy .., .existsTy .. => isFalse nofun
  | .forAllTy .., .implicationTy .. => isFalse nofun
  | .forAllTy .., .ensuresTy .. => isFalse nofun
  | .existsTy .., .forAllTy .. => isFalse nofun
  | .existsTy .., .implicationTy .. => isFalse nofun
  | .existsTy .., .ensuresTy .. => isFalse nofun
  | .implicationTy .., .forAllTy .. => isFalse nofun
  | .implicationTy .., .existsTy .. => isFalse nofun
  | .implicationTy .., .ensuresTy .. => isFalse nofun
  | .ensuresTy .., .forAllTy .. => isFalse nofun
  | .ensuresTy .., .existsTy .. => isFalse nofun
  | .ensuresTy .., .implicationTy .. => isFalse nofun
  termination_by structural a => a

/-- Decidable structural equality for `Predicate`. -/
def Predicate.deq : (a b : Predicate) → Decidable (a = b)
  | .isImplemented t1, .isImplemented t2 =>
    match TraitRef.deq t1 t2 with
    | isTrue h => isTrue (by rw [h])
    | isFalse h => isFalse (fun hh => by cases hh; exact h rfl)
  | .notImplemented t1, .notImplemented t2 =>
    match TraitRef.deq t1 t2 with
    | isTrue h => isTrue (by rw [h])
    | isFalse h => isFalse (fun hh => by cases hh; exact h rfl)
  | .isLocal t1, .isLocal t2 =>
    match TraitRef.deq t1 t2 with
    | isTrue h => isTrue (by rw [h])
    | isFalse h => isFalse (fun hh => by cases hh; exact h rfl)
  | .isImplemented .., .notImplemented .. => isFalse nofun
  | .isImplemented .., .isLocal .. => isFalse nofun
  | .notImplemented .., .isImplemented .. => isFalse nofun
  | .notImplemented .., .isLocal .. => isFalse nofun
  | .isLocal .., .isImplemented .. => isFalse nofun
  | .isLocal .., .notImplemented .. => isFalse nofun
  termination_by structural a => a

/-- Decidable structural equality for `TraitRef`. -/
def TraitRef.deq : (a b : TraitRef) → Decidable (a = b)
  | .mk i1 ps1, .mk i2 ps2 =>
    match decEq i1 i2, Parameter.deqList ps1 ps2 with
    | isTrue h1, isTrue h2 => isTrue (by rw [h1, h2])
    | isFalse h1, _ => isFalse (fun h => by cases h; exact h1 rfl)
    | _, isFalse h2 => isFalse (fun h => by cases h; exact h2 rfl)
  termination_by structural a => a

/-- Decidable structural equality for `Parameter`. -/
def Parameter.deq : (a b : Parameter) → Decidable (a = b)
  | .ty t1, .ty t2 =>
    match Ty.deq t1 t2 with
    | isTrue h => isTrue (by rw [h])
    | isFalse h => isFalse (fun hh => by cases hh; exact h rfl)
  | .lt l1, .lt l2 =>
    match decEq l1 l2 with
    | isTrue h => isTrue (by rw [h])
    | isFalse h => isFalse (fun hh => by cases hh; exact h rfl)
  | .ty .., .lt .. => isFalse nofun
  | .lt .., .ty .. => isFalse nofun
  termination_by structural a => a

/-- Decidable structural equality for parameter lists. -/
def Parameter.deqList : (a b : List Parameter) → Decidable (a = b)
  | [], [] => isTrue rfl
  | [], _ :: _ => isFalse nofun
  | _ :: _, [] => isFalse nofun
  | p1 :: ps1, p2 :: ps2 =>
    match Parameter.deq p1 p2, Parameter.deqList ps1 ps2 with
    | isTrue h1, isTrue h2 => isTrue (by rw [h1, h2])
    | isFalse h1, _ => isFalse (fun h => by cases h; exact h1 rfl)
    | _, isFalse h2 => isFalse (fun h => by cases h; exact h2 rfl)
  termination_by structural a => a

/-- Decidable structural equality for predicate lists. -/
def Predicate.deqList : (a b : List Predicate) → Decidable (a = b)
  | [], [] => isTrue rfl
  | [], _ :: _ => isFalse nofun
  | _ :: _, [] => isFalse nofun
  | p1 :: ps1, p2 :: ps2 =>
    match Predicate.deq p1 p2, Predicate.deqList ps1 ps2 with
    | isTrue h1, isTrue h2 => isTrue (by rw [h1, h2])
    | isFalse h1, _ => isFalse (fun h => by cases h; exact h1 rfl)
    | _, isFalse h2 => isFalse (fun h => by cases h; exact h2 rfl)
  termination_by structural a => a
end

instance : DecidableEq Ty := Ty.deq

instance : DecidableEq PredicateTy := PredicateTy.deq

instance : DecidableEq Predicate := Predicate.deq

instance : DecidableEq TraitRef := TraitRef.deq

instance : DecidableEq Parameter := Parameter.deq

/-- The type of replacement functions threaded through the fold operation
(`SubstitutionFn` in the source: kind and variable in, optional
replacement parameter out). -/
abbrev SubstitutionFn := ParameterKind → Variable → Option Parameter

/-- Modelled from the spec: shift a variable occurring under `d` enclosing
binder levels in through one more binder level.  Bound variables pointing
at one of the `d` inner binders are untouched; bound variables pointing
past them are shifted in; placeholder, inference and open variables are
untouched (binders compose by shifting de Bruijn depths, never by
renaming). -/
def Variable.shiftInFromDepth (d : Nat) (v : Variable) : Variable :=
  match v with
  | .boundVar ⟨some db, varIndex⟩ =>
    if db.index ≥ d then .boundVar ⟨some db.shift_in, varIndex⟩ else v
  | _ => v

mutual
/-- Modelled from the spec: shift every variable of a type that points
past `d` enclosing binder levels in through one binder level. -/
def Ty.shiftInFromDepth (d : Nat) : Ty → Ty
  | .rigid n ps => .rigid n (Parameter.shiftInFromDepthList d ps)
  | .alias n ps => .alias n (Parameter.shiftInFromDepthList d ps)
  | .predicateTy p => .predicateTy (p.shiftInFromDepth d)
  | .var v => .var (v.shiftInFromDepth d)
  termination_by structural t => t

/-- Shifting for predicate types; entering a binder bumps the depth. -/
def PredicateTy.shiftInFromDepth (d : Nat) : PredicateTy → PredicateTy
  | .forAllTy b => .forAllTy ⟨b.kinds, b.term.shiftInFromDepth (d + 1)⟩
  | .existsTy b => .existsTy ⟨b.kinds, b.term.shiftInFromDepth (d + 1)⟩
  | .implicationTy ps t =>
    .implicationTy (Predicate.shiftInFromDepthList d ps) (t.shiftInFromDepth d)
  | .ensuresTy t ps =>
    .ensuresTy (t.shiftInFromDepth d) (Predicate.shiftInFromDepthList d ps)
  termination_by structural p => p

/-- Shifting for predicates. -/
def Predicate.shiftInFromDepth (d : Nat) : Predicate → Predicate
  | .isImplemented tr => .isImplemented (tr.shiftInFromDepth d)
  | .notImplemented tr => .notImplemented (tr.shiftInFromDepth d)
  | .isLocal tr => .isLocal (tr.shiftInFromDepth d)
  termination_by structural p => p

/-- Shifting for trait references. -/
def TraitRef.shiftInFromDepth (d : Nat) : TraitRef → TraitRef
  | .mk id ps => .mk id (Parameter.shiftInFromDepthList d ps)
  termination_by structural tr => tr

/-- Shifting for parameters. -/
def Parameter.shiftInFromDepth (d : Nat) : Parameter → Parameter
  | .ty t => .ty (t.shiftInFromDepth d)
  | .lt .static => .lt .static
  | .lt (.var v) => .lt (.var (v.shiftInFromDepth d))
  termination_by structural p => p

/-- Shifting for parameter lists. -/
def Parameter.shiftInFromDepthList (d : Nat) : List Parameter → List Parameter
  | [] => []
  | p :: ps => p.shiftInFromDepth d :: Parameter.shiftInFromDepthList d ps
  termination_by structural ps => ps

/-- Shifting for predicate lists. -/
def Predicate.shiftInFromDepthList (d : Nat) : List Predicate → List Predicate
  | [] => []
  | p :: ps => p.shiftInFromDepth d :: Predicate.shiftInFromDepthList d ps
  termination_by structural ps => ps
end

/-- `Parameter::shift_in`: shift a whole parameter in through one binder
level (the source expresses this as a fold with `Variable::shift_in`). -/
def Parameter.shift_in (p : Parameter) : Parameter :=
  p.shiftInFromDepth 0

/-- Modelled from the spec: the replacement function seen by the body of a
binder.  A variable bound by this very binder is left untouched; any other
variable is shifted out, handed to the outer replacement function, and the
replacement (if any) is shifted back in so that capture cannot occur. -/
def binderShiftedFn (f : SubstitutionFn) : SubstitutionFn :=
  fun kind v =>
    match v.shift_out with
    | none => none
    | some v1 => (f kind v1).map Parameter.shift_in

mutual
/-- Modelled from the spec: the fold operation on types — visit every free
variable occurrence, replace it per the caller-supplied function, and
otherwise rebuild the term structurally.  At a type variable the
replacement must be a type; the source panics on a kind mismatch, which we
render by leaving the variable in place (no claim exercises that path). -/
def Ty.substitute (f : SubstitutionFn) : Ty → Ty
  | .rigid n ps => .rigid n (Parameter.substituteList f ps)
  | .alias n ps => .alias n (Parameter.substituteList f ps)
  | .predicateTy p => .predicateTy (p.substitute f)
  | .var v =>
    match f .ty v with
    | some (.ty t) => t
    | some (.lt _) => .var v
    | none => .var v
  termination_by structural t => t

/-- The fold operation on predicate types; binders wrap the replacement
function with `binderShiftedFn`. -/
def PredicateTy.substitute (f : SubstitutionFn) : PredicateTy → PredicateTy
  | .forAllTy b => .forAllTy ⟨b.kinds, b.term.substitute (binderShiftedFn f)⟩
  | .existsTy b => .existsTy ⟨b.kinds, b.term.substitute (binderShiftedFn f)⟩
  | .implicationTy ps t =>
    .implicationTy (Predicate.substituteList f ps) (t.substitute f)
  | .ensuresTy t ps =>
    .ensuresTy (t.substitute f) (Predicate.substituteList f ps)
  termination_by structural p => p

/-- The fold operation on predicates. -/
def Predicate.substitute (f : SubstitutionFn) : Predicate → Predicate
  | .isImplemented tr => .isImplemented (tr.substitute f)
  | .notImplemented tr => .notImplemented (tr.substitute f)
  | .isLocal tr => .isLocal (tr.substitute f)
  termination_by structural p => p

/-- The fold operation on trait references. -/
def TraitRef.substitute (f : SubstitutionFn) : TraitRef → TraitRef
  | .mk id ps => .mk id (Parameter.substituteList f ps)
  termination_by structural tr => tr

/-- The fold operation on parameters; at a lifetime variable the
replacement is looked up at kind `lt`. -/
def Parameter.substitute (f : SubstitutionFn) : Parameter → Parameter
  | .ty t => .ty (t.substitute f)
  | .lt .static => .lt .static
  | .lt (.var v) =>
    match f .lt v with
    | some (.lt l) => .lt l
    | some (.ty _) => .lt (.var v)
    | none => .lt (.var v)
  termination_by structural p => p

/-- The fold operation on parameter lists. -/
def Parameter.substituteList (f : SubstitutionFn) : List Parameter → List Parameter
  | [] => []
  | p :: ps => p.substitute f :: Parameter.substituteList f ps
  termination_by structural ps => ps

/-- The fold operation on predicate lists. -/
def Predicate.substituteList (f : SubstitutionFn) : List Predicate → List Predicate
  | [] => []
  | p :: ps => p.substitute f :: Predicate.substituteList f ps
  termination_by structural ps => ps
end

mutual
/-- Modelled from the spec: the variables occurring free in a type, i.e.
the variables that the fold operation would offer to its replacement
function.  A variable bound by a binder inside the term itself is not
free; crossing a binder shifts occurrences out. -/
def Ty.freeVariables : Ty → List Variable
  | .rigid _ ps => Parameter.freeVariablesList ps
  | .alias _ ps => Parameter.freeVariablesList ps
  | .predicateTy p => p.freeVariables
  | .var v => [v]
  termination_by structural t => t

/-- Free variables of a predicate type. -/
def PredicateTy.freeVariables : PredicateTy → List Variable
  | .forAllTy b => b.term.freeVariables.filterMap Variable.shift_out
  | .existsTy b => b.term.freeVariables.filterMap Variable.shift_out
  | .implicationTy ps t => Predicate.freeVariablesList ps ++ t.freeVariables
  | .ensuresTy t ps => t.freeVariables ++ Predicate.freeVariablesList ps
  termination_by structural p => p

/-- Free variables of a predicate. -/
def Predicate.freeVariables : Predicate → List Variable
  | .isImplemented tr => tr.freeVariables
  | .notImplemented tr => tr.freeVariables
  | .isLocal tr => tr.freeVariables
  termination_by structural p => p

/-- Free variables of a trait reference. -/
def TraitRef.freeVariables : TraitRef → List Variable
  | .mk _ ps => Parameter.freeVariablesList ps
  termination_by structural tr => tr

/-- Free variables of a parameter. -/
def Parameter.freeVariables : Parameter → List Variable
  | .ty t => t.freeVariables
  | .lt .static => []
  | .lt (.var v) => [v]
  termination_by structural p => p

/-- Free variables of a parameter list. -/
def Parameter.freeVariablesList : List Parameter → List Variable
  | [] => []
  | p :: ps => p.freeVariables ++ Parameter.freeVariablesList ps
  termination_by structural ps => ps

/-- Free variables of a predicate list. -/
def Predicate.freeVariablesList : List Predicate → List Variable
  | [] => []
  | p :: ps => p.freeVariables ++ Predicate.freeVariablesList ps
  termination_by structural ps => ps
end

/-- The `Fold` trait of the source, as a class: every term type supports
the fold operation and free-variable collection. -/
class Fold (α : Type) where
  substitute : SubstitutionFn → α → α
  freeVariables : α → List Variable

instance : Fold Parameter := ⟨fun f p => p.substitute f, Parameter.freeVariables⟩

instance : Fold Ty := ⟨fun f t => t.substitute f, Ty.freeVariables⟩

instance : Fold TraitRef := ⟨fun f tr => tr.substitute f, TraitRef.freeVariables⟩

/-- Association-list lookup, standing in for `Map::get` on the
`BTreeMap<Variable, Parameter>` of the source. -/
def getAssoc : List (Variable × Parameter) → Variable → Option Parameter
  | [], _ => none
  | (k, p) :: rest, v => if k = v then some p else getAssoc rest v

/-- `Substitution` from `ty.rs`: a finite mapping from variables to
parameters (the source stores a `BTreeMap`; an association list with
unique keys stands in for it). -/
structure Substitution where
  map : List (Variable × Parameter)
  deriving DecidableEq

/-- The value bound to `v`, if any (`self.map.get(v).cloned()`). -/
def Substitution.get (s : Substitution) (v : Variable) : Option Parameter :=
  getAssoc s.map v

/-- The domain of a substitution: the variables it maps. -/
def Substitution.domain (s : Substitution) : List Variable :=
  s.map.map Prod.fst

/-- `Substitution::apply` from `ty.rs`:
`t.substitute(&mut |_kind, v| self.map.get(v).cloned())`. -/
def Substitution.apply {α : Type} [Fold α] (s : Substitution) (t : α) : α :=
  Fold.substitute (fun _kind v => s.get v) t

/-- Decidable equality for check results. -/
instance {ε α : Type} [DecidableEq ε] [DecidableEq α] : DecidableEq (Except ε α) :=
  fun a b =>
    match a, b with
    | .ok x, .ok y =>
      match decEq x y with
      | isTrue h => isTrue (by rw [h])
      | isFalse h => isFalse (fun hh => by cases hh; exact h rfl)
    | .error x, .error y =>
      match decEq x y with
      | isTrue h => isTrue (by rw [h])
      | isFalse h => isFalse (fun hh => by cases hh; exact h rfl)
    | .ok _, .error _ => isFalse nofun
    | .error _, .ok _ => isFalse nofun

/-- Modelled from the spec: a where-clause / solver goal (`Wc` in the
source, whose grammar module is not among the sources): an atomic
predicate, or an equality goal between two parameters as produced by
`Wcs::all_eq`. -/
inductive Wc where
  | pred (p : Predicate)
  | equals (a b : Parameter)
  deriving DecidableEq

/-- `Wcs`: a list of where-clauses (conjunction). -/
abbrev Wcs := List Wc

/-- Modelled from the spec: `Wcs::all_eq` — the goal list asserting that
two parameter lists are pairwise equal. -/
def Wcs.allEq (a b : List Parameter) : Wcs :=
  List.zipWith Wc.equals a b

/-- Modelled from the spec: `Wc::invert` — the inverted forms of a
where-clause, "the logical negation of that bound, used as a derived
fact" (e.g. if `T: Debug` is a where-clause, its inversion is
`T: !Debug`).  Equality goals and the locality side predicate have no
inverted form. -/
def Wc.invert : Wc → List Wc
  | .pred (.isImplemented tr) => [.pred (.notImplemented tr)]
  | .pred (.notImplemented tr) => [.pred (.isImplemented tr)]
  | .pred (.isLocal _) => []
  | .equals _ _ => []

/-- The fold operation on where-clauses. -/
def Wc.substituteF (f : SubstitutionFn) : Wc → Wc
  | .pred p => .pred (p.substitute f)
  | .equals a b => .equals (a.substitute f) (b.substitute f)

/-- Free variables of a where-clause. -/
def Wc.freeVariablesF : Wc → List Variable
  | .pred p => p.freeVariables
  | .equals a b => a.freeVariables ++ b.freeVariables

instance : Fold Wc := ⟨Wc.substituteF, Wc.freeVariablesF⟩

instance : Fold Wcs :=
  ⟨fun f wcs => wcs.map (Wc.substituteF f), fun wcs => wcs.flatMap Wc.freeVariablesF⟩

/-- Modelled from the spec: the `Env` — the logical context of a proof in
progress: the current maximum universe, the live variables in scope order,
and the coherence-mode flag (`env.rs` is not among the sources; the
source field holding the live variables is named `variables`, a reserved
word here). -/
structure Env where
  univ : Universe
  vars : List Variable
  coherenceMode : Bool
  deriving DecidableEq

/-- `Env::default()`: root universe, no variables, coherence mode off. -/
def Env.default : Env :=
  ⟨Universe.ROOT, [], false⟩

/-- `Env::with_coherence_mode`: a derived environment with the
coherence-mode flag replaced. -/
def Env.withCoherenceMode (e : Env) (b : Bool) : Env :=
  { e with coherenceMode := b }

/-- Modelled from the spec: `env.encloses(term)` — every free (placeholder
or inference) variable of the term is among the environment's live
variables, i.e. no variable is scoped more tightly than this `Env`. -/
def Env.encloses (e : Env) (vs : List Variable) : Bool :=
  (vs.filter Variable.is_free).all (fun v => e.vars.contains v)

/-- The replacement function that opens a binder universally: a bound
variable of this binder (debruijn depth 0 at the binder itself) is
replaced by a fresh placeholder in universe `u`, indexed by its
`var_index`; everything else is left alone. -/
def openUniversallyFn (u : Universe) : SubstitutionFn :=
  fun kind v =>
    match v with
    | .boundVar ⟨some ⟨0⟩, ⟨i⟩⟩ =>
      some ((Variable.placeholderVar ⟨u, i⟩).into_parameter kind)
    | _ => none

/-- Modelled from the spec: `Env::instantiate_universally` — open a binder
with placeholders in a freshly bumped universe, record the new
placeholders as live variables, and return the opened body. -/
def Env.instantiateUniversally {α : Type} [Fold α] (e : Env) (b : Binder α) :
    α × Env :=
  let u : Universe := ⟨e.univ.index + 1⟩
  let newVars : List Variable :=
    (List.range b.kinds.length).map (fun i => Variable.placeholderVar ⟨u, i⟩)
  (Fold.substitute (openUniversallyFn u) b.term,
   { e with univ := u, vars := e.vars ++ newVars })

/-- Modelled from the spec: the body of a trait implementation — "a binder
over (interface reference, where-clause list)" (`TraitImplBoundData` in
the source grammar, which is not among the sources). -/
structure ImplData where
  traitRef : TraitRef
  whereClauses : Wcs
  deriving DecidableEq

instance : Fold ImplData :=
  ⟨fun f d => ⟨d.traitRef.substitute f, d.whereClauses.map (Wc.substituteF f)⟩,
   fun d => d.traitRef.freeVariables ++ d.whereClauses.flatMap Wc.freeVariablesF⟩

/-- `TraitImpl`: a positive trait implementation, a binder over its body. -/
structure TraitImpl where
  binder : Binder ImplData
  deriving DecidableEq

/-- `NegTraitImpl`: a negative trait implementation. -/
structure NegTraitImpl where
  binder : Binder ImplData
  deriving DecidableEq

/-- `TraitImpl::trait_id`: the trait id named by the implementation. -/
def TraitImpl.traitId (i : TraitImpl) : TraitId :=
  i.binder.term.traitRef.traitId

/-- The goal `trait_ref.is_local()`: the locality side predicate as a
where-clause goal. -/
def TraitRef.isLocalWc (tr : TraitRef) : Wc :=
  .pred (.isLocal tr)

/-- The errors produced by the checker.  The source reports free-text
`anyhow` errors; each constructor corresponds to one `bail!`/context site
and carries the data interpolated into the message. -/
inductive CheckError where
  | couldNotProve (goal : Wcs)
  | unexpectedlyProvable (goal : Wcs)
  | orphanCheckFailed (i : TraitImpl)
  | orphanCheckNegFailed (i : NegTraitImpl)
  | duplicateImpl (i : TraitImpl)
  | implsMayOverlap (a b : TraitImpl)
  | traitItemCheckFailed (id : String)
  deriving DecidableEq

/-- The checker (`Check<'_>` in the source) with its out-of-scope
collaborators as oracle fields: `solveBase` is the underlying solver
(result-set non-emptiness for a goal list under assumptions, modelled from
the spec since the prover internals are not among the sources);
`localTraitRef` is the locality side predicate of the current crate;
`program`/`currentCrate*` are the loaded implementation lists. -/
structure Check where
  solveBase : Env → Wcs → Wcs → Bool
  localTraitRef : TraitRef → Bool
  program : List TraitImpl
  currentCrateImpls : List TraitImpl
  currentCrateNegImpls : List NegTraitImpl
  proveWcWellFormed : Env → Wcs → Wcs → Bool
  checkFn : Env → Wcs → FnId → Bool

/-- Modelled from the spec: the solver seen by the checker.  The
single-goal list consisting of the locality predicate is decided by the
locality side predicate ("require that the interface reference be *local*
to C (a side predicate outside the solver proper)"); every other goal
list is decided by the underlying solver oracle. -/
def Check.solve (c : Check) (env : Env) (assumptions goal : Wcs) : Bool :=
  match goal with
  | [.pred (.isLocal tr)] => c.localTraitRef tr
  | g => c.solveBase env assumptions g

/-- Modelled from the spec: `prove_goal` — succeed exactly when the
solver's result set for the goal under the assumptions is non-empty,
otherwise report an unprovable-goal error. -/
def Check.proveGoal (c : Check) (env : Env) (assumptions goal : Wcs) :
    Except CheckError Unit :=
  if c.solve env assumptions goal then .ok () else .error (.couldNotProve goal)

/-- Modelled from the spec: the negation primitive `prove_not_goal` —
succeed exactly when the solver's result set for the goal under the
assumptions is empty (negation as failure). -/
def Check.proveNotGoal (c : Check) (env : Env) (assumptions goal : Wcs) :
    Except CheckError Unit :=
  if c.solve env assumptions goal then .error (.unexpectedlyProvable goal)
  else .ok ()

/-- `orphan_check` from `coherence.rs`: open the implementation's binder
universally in a fresh `Env` and prove, in coherence mode and under the
implementation's where-clauses, that its trait reference is local.  The
`#[context(...)]` attribute wraps any failure with the offending
implementation. -/
def Check.orphanCheck (c : Check) (i : TraitImpl) : Except CheckError Unit :=
  let (a, env) := Env.default.instantiateUniversally i.binder
  let traitRef := a.traitRef
  match c.proveGoal (env.withCoherenceMode true) a.whereClauses [traitRef.isLocalWc] with
  | .ok () => .ok ()
  | .error _ => .error (.orphanCheckFailed i)

/-- `orphan_check_neg` from `coherence.rs`: identical to `orphan_check`
but for negative implementations. -/
def Check.orphanCheckNeg (c : Check) (i : NegTraitImpl) : Except CheckError Unit :=
  let (a, env) := Env.default.instantiateUniversally i.binder
  let traitRef := a.traitRef
  match c.proveGoal (env.withCoherenceMode true) a.whereClauses [traitRef.isLocalWc] with
  | .ok () => .ok ()
  | .error _ => .error (.orphanCheckNegFailed i)

/-- `overlap_check` from `coherence.rs`: open both binders universally in
one environment, then (a) try to refute, in coherence mode, "the
parameter lists are pairwise equal and both where-clause lists hold" via
the negation primitive; failing that, (b) look for an inverted
where-clause from either implementation that is provable assuming that
same conjunction; if neither succeeds, report that the implementations
may overlap, naming both. -/
def Check.overlapCheck (c : Check) (implA implB : TraitImpl) :
    Except CheckError Unit :=
  let (a, env1) := Env.default.instantiateUniversally implA.binder
  let (b, env) := env1.instantiateUniversally implB.binder
  let traitRefA := a.traitRef
  let traitRefB := b.traitRef
  let conj : Wcs :=
    Wcs.allEq traitRefA.parameters traitRefB.parameters ++
      a.whereClauses ++ b.whereClauses
  match c.proveNotGoal (env.withCoherenceMode true) [] conj with
  | .ok () => .ok ()
  | .error _ =>
    let inverted : List Wc :=
      (a.whereClauses ++ b.whereClauses).flatMap Wc.invert
    if inverted.any (fun invertedWc => (c.proveGoal env conj [invertedWc]).isOk)
    then .ok ()
    else .error (.implsMayOverlap implA implB)

/-- Run a check over a list, stopping at the first error (the `for` loops
with `?` of `check_coherence`). -/
def firstError {α : Type} (f : α → Except CheckError Unit) :
    List α → Except CheckError Unit
  | [] => .ok ()
  | x :: xs =>
    match f x with
    | .ok () => firstError f xs
    | .error e => .error e

/-- The duplicate-impl loop of `check_coherence`: for each implementation
in order, fail if it occurs again later in the list. -/
def dupCheck : List TraitImpl → Except CheckError Unit
  | [] => .ok ()
  | x :: xs =>
    if xs.contains x then .error (.duplicateImpl x) else dupCheck xs

/-- The overlap pairs visited by `check_coherence`: the cartesian product
of the current crate's implementations with every crate's implementations,
keeping only structurally distinct pairs naming the same trait. -/
def Check.overlapPairs (c : Check) : List (TraitImpl × TraitImpl) :=
  (c.currentCrateImpls.flatMap (fun a => c.program.map (fun b => (a, b)))).filter
    (fun p => p.1 ≠ p.2 ∧ p.1.traitId = p.2.traitId)

/-- `check_coherence` from `coherence.rs`: orphan-check every positive and
negative implementation of the current crate, then reject duplicate
implementations within the crate, then overlap-check every relevant pair. -/
def Check.checkCoherence (c : Check) : Except CheckError Unit :=
  match firstError c.orphanCheck c.currentCrateImpls with
  | .error e => .error e
  | .ok () =>
    match firstError c.orphanCheckNeg c.currentCrateNegImpls with
    | .error e => .error e
    | .ok () =>
      match dupCheck c.currentCrateImpls with
      | .error e => .error e
      | .ok () =>
        firstError (fun p => c.overlapCheck p.1 p.2) c.overlapPairs

/-- The generic fold for binders: the body is folded with the shifted
replacement function; free variables of the body that point past this
binder are shifted out. -/
instance {α : Type} [Fold α] : Fold (Binder α) :=
  ⟨fun f b => ⟨b.kinds, Fold.substitute (binderShiftedFn f) b.term⟩,
   fun b => (Fold.freeVariables b.term).filterMap Variable.shift_out⟩

/-- Modelled from the source imports: the body of an associated-type
declaration — what it ensures and its own where-clauses
(`AssociatedTyBoundData` in the `formality-rust` grammar, which is not
among the sources). -/
structure AssociatedTyBoundData where
  ensures : Wcs
  whereClauses : Wcs
  deriving DecidableEq

instance : Fold AssociatedTyBoundData :=
  ⟨fun f d => ⟨d.ensures.map (Wc.substituteF f), d.whereClauses.map (Wc.substituteF f)⟩,
   fun d => d.ensures.flatMap Wc.freeVariablesF ++ d.whereClauses.flatMap Wc.freeVariablesF⟩

/-- An associated-type trait item: a name and a binder over its bound data. -/
structure AssociatedTy where
  id : AssociatedItemId
  binder : Binder AssociatedTyBoundData
  deriving DecidableEq

/-- A function trait item; its body is checked by the out-of-scope
`check_fn`, so only its name matters here. -/
structure Fn where
  id : FnId
  deriving DecidableEq

/-- `TraitItem` from the source imports: a function or an associated type. -/
inductive TraitItem where
  | fnItem (f : Fn)
  | associatedTyItem (a : AssociatedTy)
  deriving DecidableEq

/-- Modelled from the source imports: the body of a trait declaration —
its where-clauses and its items (`TraitBoundData`). -/
structure TraitBoundData where
  whereClauses : Wcs
  traitItems : List TraitItem
  deriving DecidableEq

/-- Fold for trait items: an associated type's binder is folded, a
function item carries no parameters here. -/
instance : Fold TraitItem :=
  ⟨fun f i =>
    match i with
    | .fnItem g => .fnItem g
    | .associatedTyItem a => .associatedTyItem ⟨a.id, Fold.substitute f a.binder⟩,
   fun i =>
    match i with
    | .fnItem _ => []
    | .associatedTyItem a => Fold.freeVariables a.binder⟩

instance : Fold TraitBoundData :=
  ⟨fun f d =>
    ⟨d.whereClauses.map (Wc.substituteF f),
     d.traitItems.map (Fold.substitute f)⟩,
   fun d =>
    d.whereClauses.flatMap Wc.freeVariablesF ++
      d.traitItems.flatMap Fold.freeVariables⟩

/-- A trait declaration: a name and a binder over its bound data (the
source reaches the binder through `binder.explicit_binder`; the implicit
`Self` bookkeeping of `TraitBinder` is folded into the binder itself). -/
structure Trait where
  id : TraitId
  binder : Binder TraitBoundData
  deriving DecidableEq

/-- `check_trait_items_have_unique_names` from `traits.rs`: the source
body is `// FIXME:` followed by `Ok(())` — it accepts every item list. -/
def Check.checkTraitItemsHaveUniqueNames (_c : Check) (_traitItems : List TraitItem) :
    Except CheckError Unit :=
  .ok ()

/-- `check_associated_ty` from `traits.rs`: open the associated type's
binder inside the trait's environment and prove its where-clauses
well-formed assuming the trait's and its own where-clauses (the source
leaves `ensures` well-formedness unchecked, marked `FIXME`). -/
def Check.checkAssociatedTy (c : Check) (traitEnv : Env) (traitWhereClauses : Wcs)
    (associatedTy : AssociatedTy) : Except CheckError Unit :=
  let (bd, env) := traitEnv.instantiateUniversally associatedTy.binder
  if c.proveWcWellFormed env (traitWhereClauses ++ bd.whereClauses) bd.whereClauses
  then .ok ()
  else .error (.couldNotProve bd.whereClauses)

/-- `check_trait_item` from `traits.rs`: dispatch on the item kind;
function bodies are checked by the out-of-scope `check_fn` oracle. -/
def Check.checkTraitItem (c : Check) (env : Env) (whereClauses : Wcs) :
    TraitItem → Except CheckError Unit
  | .fnItem f =>
    if c.checkFn env whereClauses f.id then .ok ()
    else .error (.traitItemCheckFailed f.id)
  | .associatedTyItem a => c.checkAssociatedTy env whereClauses a

/-- `check_trait` from `traits.rs`: open the trait's binder universally,
run the (vacuous) unique-name check, prove the trait's where-clauses
well-formed, then check each item in order. -/
def Check.checkTrait (c : Check) (t : Trait) : Except CheckError Unit :=
  let (bd, env) := Env.default.instantiateUniversally t.binder
  match c.checkTraitItemsHaveUniqueNames bd.traitItems with
  | .error e => .error e
  | .ok () =>
    if c.proveWcWellFormed env bd.whereClauses bd.whereClauses then
      firstError (c.checkTraitItem env bd.whereClauses) bd.traitItems
    else .error (.couldNotProve bd.whereClauses)

/-- Modelled from the spec: the program's declaration set, threaded
through the judgments untouched (`Decls` of `formality-prove`, not among
the sources). -/
structure Decls where
  impls : List TraitImpl
  deriving DecidableEq

/-- Modelled from the spec: `Constraints` — the result of a successful
proof: an environment (possibly with new variables) plus a substitution
capturing everything learned. -/
structure Constraints where
  env : Env
  substitution : Substitution
  deriving DecidableEq

/-- `Constraints::none(env)`: the trivial success — no new
learned substitution. -/
def Constraints.none (env : Env) : Constraints :=
  ⟨env, ⟨[]⟩⟩

/-- Modelled from the spec: `c1.seq(c2)` — compose two constraint sets:
the later environment together with the union of learned mappings. -/
def Constraints.seq (c1 c2 : Constraints) : Constraints :=
  ⟨c2.env, ⟨c1.substitution.map ++ c2.substitution.map⟩⟩

/-- The type of the `prove_wc` judgment, which proves a single
where-clause: its defining module is not among the sources, so the
relations below are parameterized over it. -/
abbrev ProveWcRel := Decls → Env → Wcs → Wc → Constraints → Prop

mutual
/-- `prove_wc_list` from `prove_wc_list.rs`, as a relation between its
input tuple and one result: the rule `"none"` proves an empty goal list
with `Constraints::none(env)`; the rule `"some"` proves a goal list
`(wc0, wcs1)` by proving `wc0` via `prove_wc` and then proving `wcs1`
under the learned constraints via `prove_after`. -/
inductive ProveWcList (pw : ProveWcRel) :
    Decls → Env → Wcs → List Wc → Constraints → Prop where
  | none (decls : Decls) (env : Env) (assumptions : Wcs) :
      ProveWcList pw decls env assumptions [] (Constraints.none env)
  | some (decls : Decls) (env : Env) (assumptions : Wcs) (wc0 : Wc)
      (wcs1 : List Wc) (c1 cOut : Constraints) :
      pw decls env assumptions wc0 c1 →
      ProveAfter pw decls c1 assumptions wcs1 cOut →
      ProveWcList pw decls env assumptions (wc0 :: wcs1) cOut

/-- Modelled from the spec: `prove_after` — "prove goal A then, under A's
learned substitution, prove goal B": the substitution learned so far is
applied to the assumptions and the remaining goals before they are
attempted, in the environment produced so far, and the resulting
constraints are composed onto the earlier ones. -/
inductive ProveAfter (pw : ProveWcRel) :
    Decls → Constraints → Wcs → List Wc → Constraints → Prop where
  | mk (decls : Decls) (c1 : Constraints) (assumptions : Wcs)
      (wcs1 : List Wc) (c2 : Constraints) :
      ProveWcList pw decls c1.env (c1.substitution.apply assumptions)
        (c1.substitution.apply wcs1) c2 →
      ProveAfter pw decls c1 assumptions wcs1 (c1.seq c2)
end

/-- The assertion at the head of `prove_wc_list`:
`assert(env.encloses((&assumptions, &goal)))` — the caller's environment
must enclose the free variables of the assumptions and of the goal. -/
def proveWcListAssert (env : Env) (assumptions goal : Wcs) : Bool :=
  env.encloses (Fold.freeVariables assumptions ++ Fold.freeVariables goal)

/-- `e2` extends `e1`: every live variable of `e1` is live in `e2`. -/
def EnvExtends (e2 e1 : Env) : Prop :=
  ∀ v : Variable, e1.vars.contains v → e2.vars.contains v

/-- A `prove_wc` implementation is scope-monotone when the environment of
every result extends the input environment (the spec makes the
environment "the sole authority for allocating universes/variables": it
only ever grows). -/
def PwMonotone (pw : ProveWcRel) : Prop :=
  ∀ decls env assumptions wc c,
    pw decls env assumptions wc c → EnvExtends c.env env

/-- `Graph` from `test_reachable.rs`. -/
structure Graph where
  edges : List (Nat × Nat)
  deriving DecidableEq

/-- `Graph::successors` from `test_reachable.rs`: the immediate successors
of `n` in edge order. -/
def Graph.successors (g : Graph) (n : Nat) : List Nat :=
  g.edges.filterMap (fun e => if e.1 = n then some e.2 else none)

/-- The two inference rules of the `TransitiveReachability` judgment from
`test_reachable.rs`, as an inductive relation: a successor is reachable,
and reachability composes transitively. -/
inductive TransitiveReachability (g : Graph) : Nat → Nat → Prop where
  | step (start s : Nat) :
      s ∈ g.successors start → TransitiveReachability g start s
  | trans (a b c : Nat) :
      TransitiveReachability g a b → TransitiveReachability g b c →
      TransitiveReachability g a c

/-- The result set recorded for input `a` in a judgment table. -/
def lookupTable (table : List (Nat × List Nat)) (a : Nat) : List Nat :=
  ((table.find? (fun p => p.1 = a)).map Prod.snd).getD []

/-- The input tuples the judgment can be asked about for this graph: the
start node and every node mentioned by an edge. -/
def Graph.nodesOf (g : Graph) (start : Nat) : List Nat :=
  (start :: g.edges.flatMap (fun e => [e.1, e.2])).dedup

/-- Modelled from the spec: one round of the judgment engine — for every
input tuple, collect the outputs of every rule whose premises are
satisfied by the current table (rule 1: the successors; rule 2: anything
reachable from anything reachable), deduplicating by structural equality. -/
def judgmentStep (g : Graph) (nodes : List Nat) (table : List (Nat × List Nat)) :
    List (Nat × List Nat) :=
  nodes.map (fun a =>
    (a, (g.successors a ++
          (lookupTable table a).flatMap (fun b => lookupTable table b)).dedup))

/-- Modelled from the spec: the judgment engine's evaluation of
`TransitiveReachability(graph, start).apply()` — iterate the rules to a
fixed point starting from the empty table and read off the result set for
the start node.  The iteration count suffices for the table to become
stationary on the (finite) node set. -/
def judgmentApply (g : Graph) (start : Nat) : List Nat :=
  let nodes := g.nodesOf start
  lookupTable ((judgmentStep g nodes)^[nodes.length * nodes.length + 1] []) start

/-- The test graph of `test_reachable.rs`:
`edges: vec![(0, 1), (1, 2), (2, 0), (2, 3)]`. -/
def testGraph : Graph :=
  ⟨[(0, 1), (1, 2), (2, 0), (2, 3)]⟩

/-- A sample trait reference `Debug[A]`. -/
def sampleTraitRefA : TraitRef :=
  .mk "Debug" [.ty (.rigid (.adtId "A") [])]

/-- A sample trait reference `Debug[B]`. -/
def sampleTraitRefB : TraitRef :=
  .mk "Debug" [.ty (.rigid (.adtId "B") [])]

/-- A sample implementation `impl Debug for A`. -/
def sampleImplA : TraitImpl :=
  ⟨⟨[], ⟨sampleTraitRefA, []⟩⟩⟩

/-- A sample implementation `impl Debug for B`. -/
def sampleImplB : TraitImpl :=
  ⟨⟨[], ⟨sampleTraitRefB, []⟩⟩⟩

/-- A sample negative implementation `impl !Debug for A`. -/
def sampleNegImpl : NegTraitImpl :=
  ⟨⟨[], ⟨sampleTraitRefA, []⟩⟩⟩

/-- A sample checker: the underlying solver proves nothing, the locality
side predicate answers `locality` uniformly, and the given list is both
the current crate's and the whole program's implementation set. -/
def sampleCheck (locality : Bool) (impls : List TraitImpl) : Check :=
  { solveBase := fun _ _ _ => false
    localTraitRef := fun _ => locality
    program := impls
    currentCrateImpls := impls
    currentCrateNegImpls := [sampleNegImpl]
    proveWcWellFormed := fun _ _ _ => true
    checkFn := fun _ _ _ => true }

/-- A sample substitution mapping inference variable 0 to `u32`. -/
def sampleSubstitution : Substitution :=
  ⟨[(.inferenceVar ⟨0⟩, .ty (.rigid (.scalarId .u32) []))]⟩

/-- A sample parameter `Vec[P]` mentioning only a placeholder variable. -/
def sampleParameter : Parameter :=
  .ty (.rigid (.adtId "Vec") [.ty (.var (.placeholderVar ⟨⟨1⟩, 0⟩))])

/-- The trivial `prove_wc` oracle: it proves any single where-clause with
no new constraints. -/
def pwTriv : ProveWcRel :=
  fun _decls env _assumptions _wc c => c = Constraints.none env

/-- A sample (empty) declaration set. -/
def sampleDecls : Decls :=
  ⟨[]⟩

/-- A sample where-clause goal. -/
def sampleWc : Wc :=
  .pred (.isImplemented sampleTraitRefA)

/-- A sample trait whose two items carry the same name. -/
def sampleTrait : Trait :=
  ⟨"Iterator", ⟨[], ⟨[], [.fnItem ⟨"next"⟩, .fnItem ⟨"next"⟩]⟩⟩⟩

/-- The two opened implementation bodies and the joint environment built
at the start of `overlap_check` (its first two `instantiate_universally`
calls). -/
def overlapOpened (implA implB : TraitImpl) : ImplData × ImplData × Env :=
  let (a, env1) := Env.default.instantiateUniversally implA.binder
  let (b, env) := env1.instantiateUniversally implB.binder
  (a, b, env)

/-- The conjunction `overlap_check` tries to refute: the two parameter
lists are pairwise equal and both where-clause lists hold. -/
def overlapConj (implA implB : TraitImpl) : Wcs :=
  let (a, b, _) := overlapOpened implA implB
  Wcs.allEq a.traitRef.parameters b.traitRef.parameters ++
    a.whereClauses ++ b.whereClauses

/-- The inverted where-clauses drawn from either implementation's
where-clause list. -/
def overlapInverted (implA implB : TraitImpl) : List Wc :=
  let (a, b, _) := overlapOpened implA implB
  (a.whereClauses ++ b.whereClauses).flatMap Wc.invert

/-- Condition (a) of the overlap check: the negation primitive, in
coherence mode, refutes the conjunction. -/
def overlapRefuted (c : Check) (implA implB : TraitImpl) : Prop :=
  c.proveNotGoal ((overlapOpened implA implB).2.2.withCoherenceMode true) []
    (overlapConj implA implB) = .ok ()

/-- Condition (b) of the overlap check: some inverted where-clause is
provable assuming the conjunction. -/
def overlapContradicted (c : Check) (implA implB : TraitImpl) : Prop :=
  ∃ w ∈ overlapInverted implA implB,
    c.proveGoal (overlapOpened implA implB).2.2 (overlapConj implA implB) [w] =
      .ok ()

/-- The judgment table reached by the engine model on the test graph at
its iteration bound. -/
def testTable : List (Nat × List Nat) :=
  (judgmentStep testGraph (testGraph.nodesOf 0))^[(testGraph.nodesOf 0).length * (testGraph.nodesOf 0).length + 1] []

/-- A sample constraint set: the trivial success in the default
environment. -/
def sampleConstraints : Constraints :=
  Constraints.none Env.default

/-! Helper lemmas. -/

/-- `prove_goal` reports success (`isOk`) exactly when it returns `Ok(())`. -/
theorem proveGoal_isOk_iff (c : Check) (env : Env) (assumptions goal : Wcs) :
    (c.proveGoal env assumptions goal).isOk = true ↔
      c.proveGoal env assumptions goal = .ok () := by
  unfold Check.proveGoal
  split <;> simp [Except.isOk, Except.toBool]

/-- Iterating a list of checks succeeds exactly when every check does. -/
theorem firstError_eq_ok_iff {α : Type} (f : α → Except CheckError Unit)
    (l : List α) :
    firstError f l = .ok () ↔ ∀ x ∈ l, f x = .ok () := by
  induction l with
  | nil => simp [firstError]
  | cons a l ih =>
    simp only [firstError, List.mem_cons]
    cases h : f a with
    | ok u =>
      cases u
      simp only [ih]
      constructor
      · intro hall x hx
        rcases hx with rfl | hx
        · exact h
        · exact hall x hx
      · intro hall x hx
        exact hall x (Or.inr hx)
    | error e =>
      constructor
      · intro hc
        cases hc
      · intro hall
        have := hall a (Or.inl rfl)
        rw [h] at this
        cases this

/-- Association-list lookup misses every variable outside the key set. -/
theorem getAssoc_eq_none (l : List (Variable × Parameter)) (v : Variable)
    (h : v ∉ l.map Prod.fst) : getAssoc l v = none := by
  induction l with
  | nil => rfl
  | cons kp rest ih =>
    simp only [List.map_cons, List.mem_cons, not_or] at h
    simp only [getAssoc]
    rw [if_neg (fun he => h.1 he.symm)]
    exact ih h.2

/-- Environment extension is reflexive. -/
theorem envExtends_refl (e : Env) : EnvExtends e e :=
  fun _ h => h

/-- Environment extension is transitive. -/
theorem envExtends_trans {e3 e2 e1 : Env}
    (h32 : EnvExtends e3 e2) (h21 : EnvExtends e2 e1) : EnvExtends e3 e1 :=
  fun v hv => h32 v (h21 v hv)

/-- Whatever an extended environment's ancestor encloses, it encloses. -/
theorem envExtends_encloses {e2 e1 : Env} (hext : EnvExtends e2 e1)
    (vs : List Variable) (h : e1.encloses vs = true) : e2.encloses vs = true := by
  simp only [Env.encloses, List.all_eq_true] at h ⊢
  exact fun v hv => hext v (h v hv)

/-- For a scope-monotone `prove_wc`, the environment of every
`prove_wc_list` result extends the caller's environment. -/
theorem proveWcList_env_extends (pw : ProveWcRel) (hm : PwMonotone pw)
    (decls : Decls) (env : Env) (assumptions : Wcs) (goal : List Wc)
    (c : Constraints) (h : ProveWcList pw decls env assumptions goal c) :
    EnvExtends c.env env := by
  induction h using ProveWcList.rec
    (motive_2 := fun c1 _assumptions _wcs1 cOut _h => EnvExtends cOut.env c1.env) with
  | none _ _ => exact envExtends_refl _
  | some _ _ _ _ c1 _ hpw _hafter ih =>
    exact envExtends_trans ih (hm _ _ _ _ _ hpw)
  | mk _ _ _ c2 _hlist ih => exact ih

/-- The duplicate-impl loop: a list that is not duplicate-free splits as
`l1 ++ x :: l2` with the reported `x` occurring again in `l2`, every
implementation before `x` occurring only once, and the loop reporting
exactly `x`. -/
theorem dupCheck_spec (l : List TraitImpl) (h : ¬ l.Nodup) :
    ∃ l1 x l2, l = l1 ++ x :: l2 ∧ x ∈ l2 ∧ l1.Nodup ∧
      (∀ y ∈ l1, y ∉ x :: l2) ∧
      dupCheck l = .error (.duplicateImpl x) := by
  induction l with
  | nil => exact absurd List.nodup_nil h
  | cons a l ih =>
    by_cases hmem : a ∈ l
    · refine ⟨[], a, l, rfl, hmem, List.nodup_nil, by simp, ?_⟩
      have hc : l.contains a = true := List.elem_eq_true_of_mem hmem
      show (if l.contains a = true then Except.error (CheckError.duplicateImpl a)
          else dupCheck l) = Except.error (CheckError.duplicateImpl a)
      rw [hc, if_pos rfl]
    · have hl : ¬ l.Nodup := fun hnd => h (List.nodup_cons.mpr ⟨hmem, hnd⟩)
      obtain ⟨l1, x, l2, heq, hx, hnd1, hnotin, hdc⟩ := ih hl
      have hanotin : a ∉ x :: l2 := by
        intro hax
        apply hmem
        rw [heq]
        exact List.mem_append_right _ hax
      refine ⟨a :: l1, x, l2, by rw [heq]; rfl, hx, ?_, ?_, ?_⟩
      · refine List.nodup_cons.mpr ⟨?_, hnd1⟩
        intro hal1
        exact hmem (by rw [heq]; exact List.mem_append_left _ hal1)
      · intro y hy
        rw [List.mem_cons] at hy
        rcases hy with rfl | hy
        · exact hanotin
        · exact hnotin y hy
      · have hc : l.contains a = false := by
          cases hcc : l.contains a
          · rfl
          · exact absurd (List.mem_of_elem_eq_true hcc) hmem
        show (if l.contains a = true then Except.error (CheckError.duplicateImpl a)
            else dupCheck l) = Except.error (CheckError.duplicateImpl x)
        rw [hc, if_neg Bool.false_ne_true]
        exact hdc

/- Folding a term with a replacement function that returns `none` on all
of its free variables rebuilds the term unchanged (the fold visits only
free variable occurrences; under a binder the function is wrapped with
the capture-avoiding shift). -/
mutual
/-- The fold-identity property for types. -/
theorem tySubstituteIdOfFree :
    (t : Ty) → (f : SubstitutionFn) →
    (∀ k v, v ∈ t.freeVariables → f k v = none) → t.substitute f = t
  | .rigid n ps, f, h =>
    congrArg (Ty.rigid n) (parameterListSubstituteIdOfFree ps f h)
  | .alias n ps, f, h =>
    congrArg (Ty.alias n) (parameterListSubstituteIdOfFree ps f h)
  | .predicateTy p, f, h =>
    congrArg Ty.predicateTy (predicateTySubstituteIdOfFree p f h)
  | .var v, f, h => by
    have h0 : f .ty v = none := h .ty v (List.mem_cons_self v [])
    simp only [Ty.substitute, h0]
  termination_by structural t => t

/-- The fold-identity property for predicate types. -/
theorem predicateTySubstituteIdOfFree :
    (p : PredicateTy) → (f : SubstitutionFn) →
    (∀ k v, v ∈ p.freeVariables → f k v = none) → p.substitute f = p
  | .forAllTy b, f, h =>
    have h' : ∀ k v, v ∈ b.term.freeVariables → binderShiftedFn f k v = none := by
      intro k v hv
      simp only [binderShiftedFn]
      cases hso : v.shift_out with
      | none => rfl
      | some v1 =>
        have hv1 : v1 ∈ (PredicateTy.forAllTy b).freeVariables := by
          simp only [PredicateTy.freeVariables, List.mem_filterMap]
          exact ⟨v, hv, hso⟩
        show Option.map Parameter.shift_in (f k v1) = none
        rw [h k v1 hv1]
        rfl
    congrArg (fun x => PredicateTy.forAllTy ⟨b.kinds, x⟩)
      (tySubstituteIdOfFree b.term (binderShiftedFn f) h')
  | .existsTy b, f, h =>
    have h' : ∀ k v, v ∈ b.term.freeVariables → binderShiftedFn f k v = none := by
      intro k v hv
      simp only [binderShiftedFn]
      cases hso : v.shift_out with
      | none => rfl
      | some v1 =>
        have hv1 : v1 ∈ (PredicateTy.existsTy b).freeVariables := by
          simp only [PredicateTy.freeVariables, List.mem_filterMap]
          exact ⟨v, hv, hso⟩
        show Option.map Parameter.shift_in (f k v1) = none
        rw [h k v1 hv1]
        rfl
    congrArg (fun x => PredicateTy.existsTy ⟨b.kinds, x⟩)
      (tySubstituteIdOfFree b.term (binderShiftedFn f) h')
  | .implicationTy ps t, f, h =>
    have e1 := predicateListSubstituteIdOfFree ps f
      (fun k v hv => h k v (List.mem_append_left _ hv))
    have e2 := tySubstituteIdOfFree t f
      (fun k v hv => h k v (List.mem_append_right _ hv))
    by simp only [PredicateTy.substitute]; rw [e1, e2]
  | .ensuresTy t ps, f, h =>
    have e1 := tySubstituteIdOfFree t f
      (fun k v hv => h k v (List.mem_append_left _ hv))
    have e2 := predicateListSubstituteIdOfFree ps f
      (fun k v hv => h k v (List.mem_append_right _ hv))
    by simp only [PredicateTy.substitute]; rw [e1, e2]
  termination_by structural p => p

/-- The fold-identity property for predicates. -/
theorem predicateSubstituteIdOfFree :
    (p : Predicate) → (f : SubstitutionFn) →
    (∀ k v, v ∈ p.freeVariables → f k v = none) → p.substitute f = p
  | .isImplemented tr, f, h =>
    congrArg Predicate.isImplemented (traitRefSubstituteIdOfFree tr f h)
  | .notImplemented tr, f, h =>
    congrArg Predicate.notImplemented (traitRefSubstituteIdOfFree tr f h)
  | .isLocal tr, f, h =>
    congrArg Predicate.isLocal (traitRefSubstituteIdOfFree tr f h)
  termination_by structural p => p

/-- The fold-identity property for trait references. -/
theorem traitRefSubstituteIdOfFree :
    (tr : TraitRef) → (f : SubstitutionFn) →
    (∀ k v, v ∈ tr.freeVariables → f k v = none) → tr.substitute f = tr
  | .mk id ps, f, h =>
    congrArg (TraitRef.mk id) (parameterListSubstituteIdOfFree ps f h)
  termination_by structural tr => tr

/-- The fold-identity property for parameters. -/
theorem parameterSubstituteIdOfFree :
    (p : Parameter) → (f : SubstitutionFn) →
    (∀ k v, v ∈ p.freeVariables → f k v = none) → p.substitute f = p
  | .ty t, f, h => congrArg Parameter.ty (tySubstituteIdOfFree t f h)
  | .lt .static, _f, _h => rfl
  | .lt (.var v), f, h => by
    have h0 : f .lt v = none := h .lt v (List.mem_cons_self v [])
    simp only [Parameter.substitute, h0]
  termination_by structural p => p

/-- The fold-identity property for parameter lists. -/
theorem parameterListSubstituteIdOfFree :
    (ps : List Parameter) → (f : SubstitutionFn) →
    (∀ k v, v ∈ Parameter.freeVariablesList ps → f k v = none) →
    Parameter.substituteList f ps = ps
  | [], _f, _h => rfl
  | p :: ps, f, h =>
    have e1 := parameterSubstituteIdOfFree p f
      (fun k v hv => h k v (List.mem_append_left _ hv))
    have e2 := parameterListSubstituteIdOfFree ps f
      (fun k v hv => h k v (List.mem_append_right _ hv))
    by simp only [Parameter.substituteList]; rw [e1, e2]
  termination_by structural ps => ps

/-- The fold-identity property for predicate lists. -/
theorem predicateListSubstituteIdOfFree :
    (ps : List Predicate) → (f : SubstitutionFn) →
    (∀ k v, v ∈ Predicate.freeVariablesList ps → f k v = none) →
    Predicate.substituteList f ps = ps
  | [], _f, _h => rfl
  | p :: ps, f, h =>
    have e1 := predicateSubstituteIdOfFree p f
      (fun k v hv => h k v (List.mem_append_left _ hv))
    have e2 := predicateListSubstituteIdOfFree ps f
      (fun k v hv => h k v (List.mem_append_right _ hv))
    by simp only [Predicate.substituteList]; rw [e1, e2]
  termination_by structural ps => ps
end


/-! Claim theorems. -/

/-- C10: `Variable::is_free` returns `true` exactly for placeholder and
inference variables; in particular a `BoundVar` whose debruijn depth is
`None` (a currently open variable) is classified as not free. -/
theorem variable_is_free_spec (v : Variable) :
    (v.is_free = true ↔
      ((∃ pv, v = .placeholderVar pv) ∨ (∃ iv, v = .inferenceVar iv))) ∧
    ∀ vi : VarIndex, (Variable.boundVar ⟨none, vi⟩).is_free = false := by
  constructor
  · cases v <;> simp [Variable.is_free]
  · intro vi
    rfl

/-- C7: applying a substitution to a term in which no variable of the
substitution's domain occurs free is a no-op — the result is structurally
equal to the input. -/
theorem substitution_apply_no_op (s : Substitution) (t : Parameter)
    (h : ∀ v ∈ s.domain, v ∉ t.freeVariables) : s.apply t = t := by
  refine parameterSubstituteIdOfFree t _ (fun k v hv => ?_)
  by_cases hd : v ∈ s.domain
  · exact absurd hv (h v hd)
  · exact getAssoc_eq_none s.map v hd

/-- Witness for C7 at a concrete substitution and term. -/
theorem substitution_apply_no_op_witness :
    (∀ v ∈ sampleSubstitution.domain, v ∉ sampleParameter.freeVariables) ∧
    sampleSubstitution.apply sampleParameter = sampleParameter :=
  ⟨by decide,
   substitution_apply_no_op sampleSubstitution sampleParameter (by decide)⟩

/-- C5: `prove_wc_list` on an empty goal list succeeds trivially, and its
unique result is `Constraints::none(env)` — no new learned substitution. -/
theorem prove_wc_list_empty (pw : ProveWcRel) (decls : Decls) (env : Env)
    (assumptions : Wcs) (c : Constraints) :
    ProveWcList pw decls env assumptions [] c ↔ c = Constraints.none env := by
  constructor
  · intro h
    cases h
    rfl
  · intro h
    subst h
    exact .none decls env assumptions

/-- Witness for C5: the trivial result is derivable at concrete inputs. -/
theorem prove_wc_list_empty_witness :
    ProveWcList pwTriv sampleDecls Env.default [] [] (Constraints.none Env.default) :=
  (prove_wc_list_empty pwTriv sampleDecls Env.default []
    (Constraints.none Env.default)).mpr rfl

/-- C4: every result of `prove_wc_list` on a non-empty goal list
`(wc0, wcs1)` arises by first proving `wc0` via `prove_wc` and then
proving `wcs1` via `prove_after` under the constraints learned from
`wc0` — in particular, the substitution learned from `wc0` is applied to
the remaining goals (and the assumptions) before they are attempted. -/
theorem prove_wc_list_cons (pw : ProveWcRel) (decls : Decls) (env : Env)
    (assumptions : Wcs) (wc0 : Wc) (wcs1 : List Wc) (cOut : Constraints)
    (h : ProveWcList pw decls env assumptions (wc0 :: wcs1) cOut) :
    ∃ c1, pw decls env assumptions wc0 c1 ∧
      ProveAfter pw decls c1 assumptions wcs1 cOut ∧
      ∃ c2, ProveWcList pw decls c1.env (c1.substitution.apply assumptions)
          (c1.substitution.apply wcs1) c2 ∧
        cOut = c1.seq c2 := by
  cases h with
  | some _ _ _ _ c1 _ hpw hafter =>
    refine ⟨c1, hpw, hafter, ?_⟩
    cases hafter with
    | mk _ _ _ c2 hlist => exact ⟨c2, hlist, rfl⟩

/-- Witness for C4: a concrete one-goal derivation decomposes as stated. -/
theorem prove_wc_list_cons_witness :
    ∃ c1, pwTriv sampleDecls Env.default [] sampleWc c1 ∧
      ProveAfter pwTriv sampleDecls c1 [] []
        (sampleConstraints.seq sampleConstraints) ∧
      ∃ c2, ProveWcList pwTriv sampleDecls c1.env
          (c1.substitution.apply ([] : Wcs)) (c1.substitution.apply ([] : List Wc)) c2 ∧
        sampleConstraints.seq sampleConstraints = c1.seq c2 :=
  prove_wc_list_cons pwTriv sampleDecls Env.default [] sampleWc [] _
    (ProveWcList.some sampleDecls Env.default [] sampleWc [] sampleConstraints _
      rfl
      (ProveAfter.mk sampleDecls sampleConstraints [] [] sampleConstraints
        (ProveWcList.none sampleDecls Env.default _)))

/-- C6: the assertion of `prove_wc_list` — the caller's `Env` encloses the
assumptions and the goal — holds under exactly that precondition, and
(for a scope-monotone `prove_wc`) the `Env` of every result still
encloses the input context, so no result leaks a variable scoped more
tightly than the caller's `Env`. -/
theorem prove_wc_list_assert_spec (pw : ProveWcRel) (hm : PwMonotone pw)
    (decls : Decls) (env : Env) (assumptions : Wcs) (goal : List Wc)
    (c : Constraints) (hder : ProveWcList pw decls env assumptions goal c)
    (hpre : env.encloses
      (Fold.freeVariables assumptions ++ Fold.freeVariables (goal : Wcs)) = true) :
    proveWcListAssert env assumptions goal = true ∧
    c.env.encloses
      (Fold.freeVariables assumptions ++ Fold.freeVariables (goal : Wcs)) = true :=
  ⟨hpre,
   envExtends_encloses
     (proveWcList_env_extends pw hm decls env assumptions goal c hder) _ hpre⟩

/-- Witness for C6 at the trivial oracle and concrete inputs. -/
theorem prove_wc_list_assert_spec_witness :
    PwMonotone pwTriv ∧
    (Env.default.encloses
      (Fold.freeVariables ([] : Wcs) ++ Fold.freeVariables ([] : Wcs)) = true) ∧
    (proveWcListAssert Env.default [] [] = true ∧
     (Constraints.none Env.default).env.encloses
       (Fold.freeVariables ([] : Wcs) ++ Fold.freeVariables ([] : Wcs)) = true) :=
  have hmono : PwMonotone pwTriv := by
    intro d e a w c h
    rw [h]
    exact envExtends_refl e
  ⟨hmono, by decide,
   prove_wc_list_assert_spec pwTriv hmono sampleDecls Env.default [] [] _
     (ProveWcList.none sampleDecls Env.default []) (by decide)⟩

/-- C8: evaluating the `TransitiveReachability` judgment on the cyclic
test graph from node 0 terminates (a further rule iteration at
the engine's bound changes no result set), returns a duplicate-free result set equal, as a set,
to `{0, 1, 2, 3}`, is deterministic across runs, and every returned node
is derivable by the judgment's two rules. -/
theorem transitive_reachability_judgment :
    (judgmentApply testGraph 0).Nodup ∧
    (judgmentApply testGraph 0).Perm [0, 1, 2, 3] ∧
    (∀ a ∈ testGraph.nodesOf 0,
      (lookupTable (judgmentStep testGraph (testGraph.nodesOf 0) testTable) a).Perm
        (lookupTable testTable a)) ∧
    judgmentApply testGraph 0 = lookupTable testTable 0 ∧
    judgmentApply testGraph 0 = judgmentApply testGraph 0 ∧
    (TransitiveReachability testGraph 0 0 ∧ TransitiveReachability testGraph 0 1 ∧
     TransitiveReachability testGraph 0 2 ∧ TransitiveReachability testGraph 0 3) := by
  have h01 : TransitiveReachability testGraph 0 1 := .step 0 1 (by decide)
  have h12 : TransitiveReachability testGraph 1 2 := .step 1 2 (by decide)
  have h20 : TransitiveReachability testGraph 2 0 := .step 2 0 (by decide)
  have h23 : TransitiveReachability testGraph 2 3 := .step 2 3 (by decide)
  have h02 : TransitiveReachability testGraph 0 2 := .trans 0 1 2 h01 h12
  refine ⟨by decide, by decide, by decide, by decide, rfl,
    .trans 0 2 0 h02 h20, h01, h02, .trans 0 2 3 h02 h23⟩

/-- C9: `check_trait_items_have_unique_names` accepts every item list
(its body is a `FIXME` returning `Ok(())`), and `check_trait` succeeds
exactly when the where-clauses are provably well-formed and every item
checks — no condition anywhere mentions name uniqueness, so duplicate
item names are never rejected. -/
theorem trait_item_name_uniqueness_unenforced (c : Check)
    (traitItems : List TraitItem) (t : Trait) :
    c.checkTraitItemsHaveUniqueNames traitItems = .ok () ∧
    (c.checkTrait t = .ok () ↔
      (c.proveWcWellFormed (Env.default.instantiateUniversally t.binder).2
          (Env.default.instantiateUniversally t.binder).1.whereClauses
          (Env.default.instantiateUniversally t.binder).1.whereClauses = true ∧
       ∀ item ∈ (Env.default.instantiateUniversally t.binder).1.traitItems,
         c.checkTraitItem (Env.default.instantiateUniversally t.binder).2
           (Env.default.instantiateUniversally t.binder).1.whereClauses item =
           .ok ())) := by
  refine ⟨rfl, ?_⟩
  unfold Check.checkTrait Check.checkTraitItemsHaveUniqueNames
  rcases hE : Env.default.instantiateUniversally t.binder with ⟨bd, env⟩
  show (if c.proveWcWellFormed env bd.whereClauses bd.whereClauses = true then
      firstError (c.checkTraitItem env bd.whereClauses) bd.traitItems
    else Except.error (.couldNotProve bd.whereClauses)) = Except.ok () ↔
    (c.proveWcWellFormed env bd.whereClauses bd.whereClauses = true ∧
     ∀ item ∈ bd.traitItems,
       c.checkTraitItem env bd.whereClauses item = Except.ok ())
  by_cases hwf : c.proveWcWellFormed env bd.whereClauses bd.whereClauses = true
  · rw [if_pos hwf, firstError_eq_ok_iff]
    exact ⟨fun hall => ⟨hwf, hall⟩, fun hall => hall.2⟩
  · rw [if_neg hwf]
    exact ⟨fun hc => Except.noConfusion hc, fun hall => absurd hall.1 hwf⟩

/-- Witness for C9: a trait whose two items share the name `next` passes
the unique-name check and the whole trait check. -/
theorem trait_item_name_uniqueness_unenforced_witness :
    (sampleCheck true []).checkTraitItemsHaveUniqueNames
      (Env.default.instantiateUniversally sampleTrait.binder).1.traitItems = .ok () ∧
    (sampleCheck true []).checkTrait sampleTrait = .ok () :=
  ⟨rfl,
   (trait_item_name_uniqueness_unenforced (sampleCheck true [])
     (Env.default.instantiateUniversally sampleTrait.binder).1.traitItems
     sampleTrait).2.mpr ⟨by decide, by decide⟩⟩

/-- `orphan_check` as an if on the solver verdict for the locality goal. -/
theorem orphanCheck_eq (c : Check) (i : TraitImpl) :
    c.orphanCheck i =
      if c.solve ((Env.default.instantiateUniversally i.binder).2.withCoherenceMode true)
          (Env.default.instantiateUniversally i.binder).1.whereClauses
          [(Env.default.instantiateUniversally i.binder).1.traitRef.isLocalWc] = true
      then .ok () else .error (.orphanCheckFailed i) := by
  unfold Check.orphanCheck Check.proveGoal
  rcases hE : Env.default.instantiateUniversally i.binder with ⟨a, env⟩
  show (match (if c.solve (env.withCoherenceMode true) a.whereClauses
        [a.traitRef.isLocalWc] = true
      then Except.ok () else Except.error (CheckError.couldNotProve [a.traitRef.isLocalWc])) with
    | Except.ok () => Except.ok ()
    | Except.error _ => Except.error (CheckError.orphanCheckFailed i)) =
    if c.solve (env.withCoherenceMode true) a.whereClauses [a.traitRef.isLocalWc] = true
    then Except.ok () else Except.error (.orphanCheckFailed i)
  by_cases hs : c.solve (env.withCoherenceMode true) a.whereClauses
      [a.traitRef.isLocalWc] = true
  · rw [if_pos hs, if_pos hs]
  · rw [if_neg hs, if_neg hs]

/-- `orphan_check_neg` as an if on the solver verdict. -/
theorem orphanCheckNeg_eq (c : Check) (j : NegTraitImpl) :
    c.orphanCheckNeg j =
      if c.solve ((Env.default.instantiateUniversally j.binder).2.withCoherenceMode true)
          (Env.default.instantiateUniversally j.binder).1.whereClauses
          [(Env.default.instantiateUniversally j.binder).1.traitRef.isLocalWc] = true
      then .ok () else .error (.orphanCheckNegFailed j) := by
  unfold Check.orphanCheckNeg Check.proveGoal
  rcases hE : Env.default.instantiateUniversally j.binder with ⟨a, env⟩
  show (match (if c.solve (env.withCoherenceMode true) a.whereClauses
        [a.traitRef.isLocalWc] = true
      then Except.ok () else Except.error (CheckError.couldNotProve [a.traitRef.isLocalWc])) with
    | Except.ok () => Except.ok ()
    | Except.error _ => Except.error (CheckError.orphanCheckNegFailed j)) =
    if c.solve (env.withCoherenceMode true) a.whereClauses [a.traitRef.isLocalWc] = true
    then Except.ok () else Except.error (.orphanCheckNegFailed j)
  by_cases hs : c.solve (env.withCoherenceMode true) a.whereClauses
      [a.traitRef.isLocalWc] = true
  · rw [if_pos hs, if_pos hs]
  · rw [if_neg hs, if_neg hs]

/-- C2: the orphan check (for positive and negative implementations
alike) opens the implementation's binder universally in a fresh `Env` and
succeeds exactly when the locality goal for its trait reference is
provable in coherence mode under its where-clauses; when the trait
reference is not local to the checked crate, it fails — whatever the
underlying solver would say about the where-clauses. -/
theorem orphan_check_spec (c : Check) (i : TraitImpl) (j : NegTraitImpl) :
    (c.orphanCheck i = .ok () ↔
      c.solve ((Env.default.instantiateUniversally i.binder).2.withCoherenceMode true)
        (Env.default.instantiateUniversally i.binder).1.whereClauses
        [(Env.default.instantiateUniversally i.binder).1.traitRef.isLocalWc] = true) ∧
    (c.localTraitRef (Env.default.instantiateUniversally i.binder).1.traitRef = false →
      c.orphanCheck i = .error (.orphanCheckFailed i)) ∧
    (c.orphanCheckNeg j = .ok () ↔
      c.solve ((Env.default.instantiateUniversally j.binder).2.withCoherenceMode true)
        (Env.default.instantiateUniversally j.binder).1.whereClauses
        [(Env.default.instantiateUniversally j.binder).1.traitRef.isLocalWc] = true) ∧
    (c.localTraitRef (Env.default.instantiateUniversally j.binder).1.traitRef = false →
      c.orphanCheckNeg j = .error (.orphanCheckNegFailed j)) := by
  refine ⟨?_, ?_, ?_, ?_⟩
  · rw [orphanCheck_eq]
    by_cases hs : c.solve
        ((Env.default.instantiateUniversally i.binder).2.withCoherenceMode true)
        (Env.default.instantiateUniversally i.binder).1.whereClauses
        [(Env.default.instantiateUniversally i.binder).1.traitRef.isLocalWc] = true
    · rw [if_pos hs]
      exact iff_of_true rfl hs
    · rw [if_neg hs]
      exact iff_of_false (fun hc => Except.noConfusion hc) hs
  · intro hloc
    rw [orphanCheck_eq]
    rw [show c.solve
        ((Env.default.instantiateUniversally i.binder).2.withCoherenceMode true)
        (Env.default.instantiateUniversally i.binder).1.whereClauses
        [(Env.default.instantiateUniversally i.binder).1.traitRef.isLocalWc] =
      c.localTraitRef (Env.default.instantiateUniversally i.binder).1.traitRef from rfl]
    rw [hloc, if_neg Bool.false_ne_true]
  · rw [orphanCheckNeg_eq]
    by_cases hs : c.solve
        ((Env.default.instantiateUniversally j.binder).2.withCoherenceMode true)
        (Env.default.instantiateUniversally j.binder).1.whereClauses
        [(Env.default.instantiateUniversally j.binder).1.traitRef.isLocalWc] = true
    · rw [if_pos hs]
      exact iff_of_true rfl hs
    · rw [if_neg hs]
      exact iff_of_false (fun hc => Except.noConfusion hc) hs
  · intro hloc
    rw [orphanCheckNeg_eq]
    rw [show c.solve
        ((Env.default.instantiateUniversally j.binder).2.withCoherenceMode true)
        (Env.default.instantiateUniversally j.binder).1.whereClauses
        [(Env.default.instantiateUniversally j.binder).1.traitRef.isLocalWc] =
      c.localTraitRef (Env.default.instantiateUniversally j.binder).1.traitRef from rfl]
    rw [hloc, if_neg Bool.false_ne_true]

/-- Witness for C2: with a non-local trait reference the orphan check
fails even though the underlying solver would prove the where-clauses. -/
theorem orphan_check_spec_witness :
    (sampleCheck false []).localTraitRef
      (Env.default.instantiateUniversally sampleImplA.binder).1.traitRef = false ∧
    (sampleCheck false []).orphanCheck sampleImplA =
      .error (.orphanCheckFailed sampleImplA) :=
  ⟨rfl, (orphan_check_spec (sampleCheck false []) sampleImplA sampleNegImpl).2.1 rfl⟩

/-- C1: for structurally distinct implementations of the same trait,
`overlap_check` succeeds exactly when (a) the negation primitive, in
coherence mode, refutes "parameters pairwise equal and both where-clause
lists hold", or (b) some inverted where-clause drawn from either
implementation is provable assuming that conjunction; when neither
refutation succeeds it fails with a diagnostic naming both
implementations. -/
theorem overlap_check_spec (c : Check) (implA implB : TraitImpl)
    (_hne : implA ≠ implB) (_hid : implA.traitId = implB.traitId) :
    (c.overlapCheck implA implB = .ok () ↔
      (overlapRefuted c implA implB ∨ overlapContradicted c implA implB)) ∧
    (¬(overlapRefuted c implA implB ∨ overlapContradicted c implA implB) →
      c.overlapCheck implA implB = .error (.implsMayOverlap implA implB)) := by
  have heq : c.overlapCheck implA implB =
      (match c.proveNotGoal
          ((overlapOpened implA implB).2.2.withCoherenceMode true) []
          (overlapConj implA implB) with
        | .ok () => .ok ()
        | .error _ =>
          if (overlapInverted implA implB).any
              (fun w => (c.proveGoal (overlapOpened implA implB).2.2
                (overlapConj implA implB) [w]).isOk) then .ok ()
          else .error (.implsMayOverlap implA implB)) := rfl
  rw [heq]
  cases hpn : c.proveNotGoal
      ((overlapOpened implA implB).2.2.withCoherenceMode true) []
      (overlapConj implA implB) with
  | ok u =>
    cases u
    have hr : overlapRefuted c implA implB := hpn
    exact ⟨iff_of_true rfl (Or.inl hr), fun hno => absurd (Or.inl hr) hno⟩
  | error e =>
    have hnr : ¬ overlapRefuted c implA implB := by
      intro hr
      rw [overlapRefuted, hpn] at hr
      exact Except.noConfusion hr
    by_cases hany : (overlapInverted implA implB).any
        (fun w => (c.proveGoal (overlapOpened implA implB).2.2
          (overlapConj implA implB) [w]).isOk) = true
    · have hcon : overlapContradicted c implA implB := by
        rw [List.any_eq_true] at hany
        obtain ⟨w, hw, hok⟩ := hany
        exact ⟨w, hw, (proveGoal_isOk_iff c _ _ _).mp hok⟩
      rw [if_pos hany]
      exact ⟨iff_of_true rfl (Or.inr hcon), fun hno => absurd (Or.inr hcon) hno⟩
    · have hncon : ¬ overlapContradicted c implA implB := by
        intro hcon
        apply hany
        rw [List.any_eq_true]
        obtain ⟨w, hw, hok⟩ := hcon
        exact ⟨w, hw, (proveGoal_isOk_iff c _ _ _).mpr hok⟩
      rw [if_neg hany]
      exact ⟨iff_of_false (fun hc => Except.noConfusion hc)
          (fun hor => hor.elim hnr hncon),
        fun _ => rfl⟩

/-- Witness for C1: two distinct concrete implementations of the same
trait for different rigid types pass the overlap check through the
refutation branch. -/
theorem overlap_check_spec_witness :
    sampleImplA ≠ sampleImplB ∧ sampleImplA.traitId = sampleImplB.traitId ∧
    (sampleCheck true []).overlapCheck sampleImplA sampleImplB = .ok () :=
  ⟨by decide, by decide,
   ((overlap_check_spec (sampleCheck true []) sampleImplA sampleImplB
       (by decide) (by decide)).1).mpr
     (Or.inl (by unfold overlapRefuted; decide))⟩

/-- Counterexample for C3 as stated: a crate whose implementation list is
the structurally identical pair `[sampleImplA, sampleImplA]` on which
`check_coherence` nevertheless aborts with an orphan diagnostic — the
orphan checks run first, so the duplicate pair is not what is reported. -/
theorem check_coherence_duplicate_counterexample :
    (sampleCheck false [sampleImplA, sampleImplA]).currentCrateImpls =
      [sampleImplA, sampleImplA] ∧
    (sampleCheck false [sampleImplA, sampleImplA]).checkCoherence =
      .error (.orphanCheckFailed sampleImplA) ∧
    (sampleCheck false [sampleImplA, sampleImplA]).checkCoherence ≠
      .error (.duplicateImpl sampleImplA) :=
  ⟨rfl, by decide, by decide⟩

/-- C3 (amended): provided every orphan check passes, a current crate
containing structurally identical implementations makes `check_coherence`
abort at the first duplicated implementation `x` with a duplicate-impl
diagnostic carrying `x` — and `x` is structurally equal to both members
of the offending pair (`x` occurs again later in the list, and everything
listed before `x` occurs only once). -/
theorem check_coherence_duplicate (c : Check)
    (horph : firstError c.orphanCheck c.currentCrateImpls = .ok ())
    (horphNeg : firstError c.orphanCheckNeg c.currentCrateNegImpls = .ok ())
    (hdup : ¬ c.currentCrateImpls.Nodup) :
    ∃ l1 x l2, c.currentCrateImpls = l1 ++ x :: l2 ∧ x ∈ l2 ∧ l1.Nodup ∧
      (∀ y ∈ l1, y ∉ x :: l2) ∧
      c.checkCoherence = .error (.duplicateImpl x) := by
  obtain ⟨l1, x, l2, heq, hx, hnd, hni, hdc⟩ := dupCheck_spec _ hdup
  refine ⟨l1, x, l2, heq, hx, hnd, hni, ?_⟩
  unfold Check.checkCoherence
  rw [horph, horphNeg, hdc]

/-- Witness for C3 (amended): with the locality predicate true the orphan
checks pass and the duplicated implementation is reported. -/
theorem check_coherence_duplicate_witness :
    firstError (sampleCheck true [sampleImplA, sampleImplA]).orphanCheck
      (sampleCheck true [sampleImplA, sampleImplA]).currentCrateImpls = .ok () ∧
    (¬ (sampleCheck true [sampleImplA, sampleImplA]).currentCrateImpls.Nodup) ∧
    ∃ l1 x l2,
      (sampleCheck true [sampleImplA, sampleImplA]).currentCrateImpls =
        l1 ++ x :: l2 ∧ x ∈ l2 ∧ l1.Nodup ∧ (∀ y ∈ l1, y ∉ x :: l2) ∧
      (sampleCheck true [sampleImplA, sampleImplA]).checkCoherence =
        .error (.duplicateImpl x) :=
  ⟨by decide, by decide,
   check_coherence_duplicate (sampleCheck true [sampleImplA, sampleImplA])
     (by decide) (by decide) (by decide)⟩
